import Mathlib

/-!
Verification of the sawit-drone field-traversal program (src/app.go).

The Go source is shallowly embedded below: Go `int` values become `Int`
(all quantities in the claims stay far below the 64-bit overflow range),
Go's truncated `%` and `/` become `Int.tmod` and `Int.tdiv`, the
`map[string]int` tree table becomes an association list with last-write-wins
lookup, and the unbounded `for` loop of `calculateFlyDistance` becomes a
fuel-indexed loop returning `Option Int` (`none` = fuel exhausted), with the
fuel chosen large enough that it is proved never to run out on the
program's input domain.
-/

/-- Embeds `absInt` (app.go): absolute value of an integer. -/
def absInt (input : Int) : Int :=
  if input < 0 then -input else input

/-- Embeds `generateTreeKey` (app.go): `fmt.Sprintf("%d,%d", x, y)`, the
decimal renderings of `x` and `y` joined by a comma.  `Int.repr` produces
exactly Go's `%d` output. -/
def generateTreeKey (x y : Int) : String :=
  Int.repr x ++ "," ++ Int.repr y

/-- Embeds Go map lookup `treeMap[key]` on the association-list model of
`map[string]int`: the entry nearest the head wins, matching last-write-wins
insertion by consing. -/
def mapLookup (m : List (String × Int)) (k : String) : Option Int :=
  match m with
  | [] => none
  | (k1, v) :: rest => if k = k1 then some v else mapLookup rest k

/-- Removing every entry with the given key from the association-list model
(the map with no entry at that key). -/
def mapErase (m : List (String × Int)) (k : String) : List (String × Int) :=
  match m with
  | [] => []
  | (k1, v) :: rest =>
    if k1 = k then mapErase rest k else (k1, v) :: mapErase rest k

/-- Embeds `getNextPlotCoordinate` (app.go): the boustrophedon step.  Go's
`y%2` is truncated remainder, `Int.tmod`. -/
def getNextPlotCoordinate (length x y : Int) : Int × Int :=
  if x = 1 then
    if Int.tmod y 2 = 0 then (x, y + 1) else (x + 1, y)
  else if x = length then
    if Int.tmod y 2 = 0 then (x - 1, y) else (x, y + 1)
  else if Int.tmod y 2 = 0 then (x - 1, y)
  else (x + 1, y)

/-- Embeds `calculateHorizontalDistance` (app.go).  Go's `/` and `%` are
truncated division and remainder, `Int.tdiv` and `Int.tmod`. -/
def calculateHorizontalDistance (length width : Int) : Int :=
  if width = 1 then length - 1
  else (length - 1) * width +
    (if Int.tmod width 2 ≠ 0 then Int.tdiv width 2 + 1 else Int.tdiv width 2)

/-- Embeds the traversal loop of `calculateFlyDistance` (app.go), indexed by
fuel; `none` means the fuel ran out before the loop condition failed. -/
def flyLoop (length width : Int) (treeMap : List (String × Int)) :
    Nat → Int → Int → Int → Int → Option Int
  | 0, x, y, _, distance =>
    if x ≤ length ∧ y ≤ width then none else some distance
  | fuel + 1, x, y, currentAltitude, distance =>
    if x ≤ length ∧ y ≤ width then
      match getNextPlotCoordinate length x y with
      | (x1, y1) =>
        match mapLookup treeMap (generateTreeKey x1 y1) with
        | none =>
          if currentAltitude ≠ 1 then
            flyLoop length width treeMap fuel x1 y1 1
              (distance + absInt (currentAltitude - 1))
          else
            flyLoop length width treeMap fuel x1 y1 currentAltitude distance
        | some treeHeight =>
          flyLoop length width treeMap fuel x1 y1 (treeHeight + 1)
            (distance + absInt (treeHeight + 1 - currentAltitude))
    else some distance

/-- Fuel that suffices for the traversal loop from `(1,1)`: proved below to
dominate the loop's step count whenever `length, width ≥ 1`. -/
def flyFuel (length width : Int) : Nat :=
  width.toNat * (length.toNat + 2) + length.toNat

/-- Embeds `calculateFlyDistance` (app.go): take-off and landing constants
plus ten times the horizontal distance, then the altitude-adjustment loop
from `(1,1)` at altitude 1. -/
def calculateFlyDistance (length width : Int)
    (treeMap : List (String × Int)) : Option Int :=
  flyLoop length width treeMap (flyFuel length width) 1 1 1
    (1 + calculateHorizontalDistance length width * 10 + 1)

/-- Embeds `validateInitialInputs` (app.go). -/
def validateInitialInputs (length width count : Int) : Bool :=
  decide (1 ≤ width) && decide (width ≤ 50000) &&
  decide (1 ≤ length) && decide (length ≤ 50000) &&
  decide (1 ≤ count) && decide (count ≤ 50000)

/-- Embeds the obstacle-reading loop of `Start` (app.go): reads `count`
triples in order (a missing triple reads as zeros, as `Scanln` leaves its
targets on a short input), fails on the first height outside `[1, 30]`, and
otherwise conses `(generateTreeKey x y, height)` onto the table, so a later
duplicate coordinate shadows an earlier one exactly as Go map assignment
does. -/
def readTrees : Nat → List (Int × Int × Int) → List (String × Int) →
    Option (List (String × Int))
  | 0, _, acc => some acc
  | n + 1, ts, acc =>
    match ts.headD (0, 0, 0) with
    | (x, y, height) =>
      if height < 1 ∨ height > 30 then none
      else readTrees n ts.tail ((generateTreeKey x y, height) :: acc)

/-- Outcome of one run of `Start` (app.go): either the FAIL signal
(`fmt.Fprintln(os.Stderr, "FAIL")` followed by `osExit(1)`) or the printed
distance. -/
inductive StartResult
  | fail : StartResult
  | output : Int → StartResult
deriving DecidableEq

/-- Embeds `Start` (app.go) on a pre-read input: the header triple
`(length, width, count)` and the list of obstacle triples the scanner would
deliver.  The outer `Option` is `none` only if the traversal fuel ran out,
which is proved impossible for inputs that pass validation. -/
def Start (length width count : Int) (ts : List (Int × Int × Int)) :
    Option StartResult :=
  if validateInitialInputs length width count = false then some StartResult.fail
  else
    match readTrees count.toNat ts [] with
    | none => some StartResult.fail
    | some treeMap =>
      (calculateFlyDistance length width treeMap).map StartResult.output

/-- Modelled from the spec: the horizontal-distance formula of spec section
4.2, which is stated in the spec's own words (integer division `width/2`
plus 1 if `width` is odd); written with mathematical integer division, to be
compared with the source's `calculateHorizontalDistance`. -/
def specHorizontalDistance (length width : Int) : Int :=
  if width = 1 then length - 1
  else (length - 1) * width + (width / 2 + if width % 2 = 1 then 1 else 0)

/-- Modelled from the spec: the traversal loop of the reference algorithm in
spec section 4.3 (advance, look up, charge `|currentAltitude - 1|` on a
clear cell, charge `|required - currentAltitude|` with `required = h + 1` on
an obstacle), fuel-indexed the same way as `flyLoop`. -/
def specFlyLoop (length width : Int) (table : List (String × Int)) :
    Nat → Int → Int → Int → Int → Option Int
  | 0, x, y, _, distance =>
    if x ≤ length ∧ y ≤ width then none else some distance
  | fuel + 1, x, y, currentAltitude, distance =>
    if x ≤ length ∧ y ≤ width then
      match getNextPlotCoordinate length x y with
      | (x1, y1) =>
        match mapLookup table (generateTreeKey x1 y1) with
        | none =>
          if currentAltitude ≠ 1 then
            specFlyLoop length width table fuel x1 y1 1
              (distance + |currentAltitude - 1|)
          else
            specFlyLoop length width table fuel x1 y1 currentAltitude distance
        | some h =>
          specFlyLoop length width table fuel x1 y1 (h + 1)
            (distance + |(h + 1) - currentAltitude|)
    else some distance

/-- Modelled from the spec: the reference fly-distance algorithm of spec
section 4.3, `distance = 1 + horizontalDistance * 10 + 1` followed by the
traversal loop from `(1,1)` at altitude 1. -/
def specFlyDistance (length width : Int)
    (table : List (String × Int)) : Option Int :=
  specFlyLoop length width table (flyFuel length width) 1 1 1
    (1 + specHorizontalDistance length width * 10 + 1)

/-- One boustrophedon step on a coordinate pair. -/
def stepCoord (length : Int) (p : Int × Int) : Int × Int :=
  getNextPlotCoordinate length p.1 p.2

/-- The traversal position after `n` steps from `(1,1)`. -/
def plotTraj (length : Int) (n : Nat) : Int × Int :=
  (stepCoord length)^[n] (1, 1)

/-- Membership in the `[1,length] × [1,width]` rectangle of plots. -/
def inRect (length width : Int) (p : Int × Int) : Prop :=
  1 ≤ p.1 ∧ p.1 ≤ length ∧ 1 ≤ p.2 ∧ p.2 ≤ width

/-- Closed form of the boustrophedon position after `n` steps on a field of
length `l ≥ 2`: row `n / l` (0-indexed), swept east on even rows and west on
odd rows. -/
def serp (l n : Nat) : Int × Int :=
  (if (n / l) % 2 = 0 then ((n % l : Nat) : Int) + 1
   else (l : Int) - ((n % l : Nat) : Int),
   ((n / l : Nat) : Int) + 1)

/-- Decimal digits of a natural number, most significant first; the clean
recursive description of what `Nat.toDigitsCore` computes. -/
def natDigits (n : Nat) : List Char :=
  if _h : n < 10 then [Nat.digitChar n]
  else natDigits (n / 10) ++ [Nat.digitChar (n % 10)]
termination_by n
decreasing_by exact Nat.div_lt_self (by omega) (by omega)

/-- Value a digit list denotes in base ten. -/
def digitsVal (ds : List Char) : Nat :=
  ds.foldl (fun a c => a * 10 + (c.toNat - 48)) 0

/-- Termination measure for the traversal loop: rows not yet finished,
weighted by the row length plus slack, plus the distance to the current
row's exit edge. -/
def stepMeasure (length width x y : Int) : Nat :=
  (width + 1 - y).toNat * (length.toNat + 2) +
    (if y % 2 = 0 then x.toNat else (length + 1 - x).toNat)

/-! ## Basic bridging lemmas -/

/-- Go's truncated `%` agrees with mathematical `%` on nonnegative operands. -/
theorem tmod_two_eq (y : Int) (hy : 0 ≤ y) : Int.tmod y 2 = y % 2 :=
  Int.tmod_eq_emod hy (by omega)

/-- Go's truncated `/` agrees with mathematical `/` on nonnegative operands. -/
theorem tdiv_two_eq (w : Int) (hw : 0 ≤ w) : Int.tdiv w 2 = w / 2 :=
  Int.tdiv_eq_ediv hw (by omega)

/-- Claim C3: branch-by-branch description of `getNextPlotCoordinate` for
in-range inputs (west edge, east edge, interior, split on the parity of
`y`), together with the six concrete spec examples on a field of length 4. -/
theorem getNextPlotCoordinate_cases :
    (∀ length x y : Int, 1 ≤ length → 1 ≤ x → 1 ≤ y → x ≤ length →
      (x = 1 →
        (y % 2 = 0 → getNextPlotCoordinate length x y = (x, y + 1)) ∧
        (y % 2 = 1 → getNextPlotCoordinate length x y = (x + 1, y))) ∧
      (x ≠ 1 → x = length →
        (y % 2 = 0 → getNextPlotCoordinate length x y = (x - 1, y)) ∧
        (y % 2 = 1 → getNextPlotCoordinate length x y = (x, y + 1))) ∧
      (x ≠ 1 → x ≠ length →
        (y % 2 = 0 → getNextPlotCoordinate length x y = (x - 1, y)) ∧
        (y % 2 = 1 → getNextPlotCoordinate length x y = (x + 1, y)))) ∧
    getNextPlotCoordinate 4 1 1 = (2, 1) ∧
    getNextPlotCoordinate 4 1 2 = (1, 3) ∧
    getNextPlotCoordinate 4 4 1 = (4, 2) ∧
    getNextPlotCoordinate 4 4 2 = (3, 2) ∧
    getNextPlotCoordinate 4 2 2 = (1, 2) ∧
    getNextPlotCoordinate 4 2 1 = (3, 1) := by
  refine ⟨?_, by decide, by decide, by decide, by decide, by decide, by decide⟩
  intro length x y hl hx hy hxl
  have ht : Int.tmod y 2 = y % 2 := tmod_two_eq y (by omega)
  refine ⟨fun h1 => ⟨fun hp => ?_, fun hp => ?_⟩,
          fun h1 hlen => ⟨fun hp => ?_, fun hp => ?_⟩,
          fun h1 hlen => ⟨fun hp => ?_, fun hp => ?_⟩⟩ <;>
    simp only [getNextPlotCoordinate, ht, hp] <;>
    simp [h1] <;> simp_all

/-- Claim C4: the closed form of `calculateHorizontalDistance` for
`width = 1` and for `width ≥ 2`, and the three concrete spec values. -/
theorem calculateHorizontalDistance_formula :
    (∀ length : Int, 1 ≤ length →
      calculateHorizontalDistance length 1 = length - 1 ∧
      ∀ width : Int, 2 ≤ width →
        calculateHorizontalDistance length width =
          (length - 1) * width +
            (width / 2 + if width % 2 = 1 then 1 else 0)) ∧
    calculateHorizontalDistance 5 1 = 4 ∧
    calculateHorizontalDistance 5 2 = 9 ∧
    calculateHorizontalDistance 5 3 = 14 := by
  refine ⟨?_, by decide, by decide, by decide⟩
  intro length _hl
  constructor
  · simp [calculateHorizontalDistance]
  · intro width hw
    have ht : Int.tmod width 2 = width % 2 := tmod_two_eq width (by omega)
    have hd : Int.tdiv width 2 = width / 2 := tdiv_two_eq width (by omega)
    rw [calculateHorizontalDistance, if_neg (by omega), ht, hd]
    have hpar : width % 2 = 0 ∨ width % 2 = 1 := by omega
    rcases hpar with h | h <;> simp [h]

/-! ## Termination of the traversal loop -/

/-- One boustrophedon step from an in-range cell keeps both coordinates
at least 1 and strictly decreases the termination measure. -/
theorem getNext_measure (length width x y x1 y1 : Int)
    (hstep : getNextPlotCoordinate length x y = (x1, y1))
    (hx : 1 ≤ x) (hy : 1 ≤ y) (hxl : x ≤ length) (hyw : y ≤ width) :
    1 ≤ x1 ∧ 1 ≤ y1 ∧
      stepMeasure length width x1 y1 < stepMeasure length width x y := by
  have ht : Int.tmod y 2 = y % 2 := tmod_two_eq y (by omega)
  have hpar : y % 2 = 0 ∨ y % 2 = 1 := by omega
  have hmul : ∀ a : Nat,
      (a + 1) * (length.toNat + 2) = a * (length.toNat + 2) + (length.toNat + 2) :=
    fun a => Nat.succ_mul a _
  have hrow : (width + 1 - (y + 1)).toNat + 1 = (width + 1 - y).toNat := by omega
  by_cases h1 : x = 1
  · rcases hpar with hp | hp
    · have hs2 : getNextPlotCoordinate length x y = (x, y + 1) := by
        rw [getNextPlotCoordinate, if_pos h1, if_pos (by rw [ht]; omega)]
      injection hstep.symm.trans hs2 with e1 e2
      subst x1 y1
      refine ⟨by omega, by omega, ?_⟩
      simp only [stepMeasure]
      rw [if_neg (show ¬((y + 1) % 2 = 0) by omega), if_pos hp, ← hrow, hmul]
      omega
    · have hs2 : getNextPlotCoordinate length x y = (x + 1, y) := by
        rw [getNextPlotCoordinate, if_pos h1, if_neg (by rw [ht]; omega)]
      injection hstep.symm.trans hs2 with e1 e2
      subst x1 y1
      refine ⟨by omega, by omega, ?_⟩
      simp only [stepMeasure]
      rw [if_neg (show ¬(y % 2 = 0) by omega),
        if_neg (show ¬(y % 2 = 0) by omega)]
      omega
  · by_cases hlen : x = length
    · rcases hpar with hp | hp
      · have hs2 : getNextPlotCoordinate length x y = (x - 1, y) := by
          rw [getNextPlotCoordinate, if_neg h1, if_pos hlen,
            if_pos (by rw [ht]; omega)]
        injection hstep.symm.trans hs2 with e1 e2
        subst x1 y1
        refine ⟨by omega, by omega, ?_⟩
        simp only [stepMeasure]
        rw [if_pos hp, if_pos hp]
        omega
      · have hs2 : getNextPlotCoordinate length x y = (x, y + 1) := by
          rw [getNextPlotCoordinate, if_neg h1, if_pos hlen,
            if_neg (by rw [ht]; omega)]
        injection hstep.symm.trans hs2 with e1 e2
        subst x1 y1
        refine ⟨by omega, by omega, ?_⟩
        simp only [stepMeasure]
        rw [if_pos (show (y + 1) % 2 = 0 by omega),
          if_neg (show ¬(y % 2 = 0) by omega), ← hrow, hmul]
        omega
    · rcases hpar with hp | hp
      · have hs2 : getNextPlotCoordinate length x y = (x - 1, y) := by
          rw [getNextPlotCoordinate, if_neg h1, if_neg hlen,
            if_pos (by rw [ht]; omega)]
        injection hstep.symm.trans hs2 with e1 e2
        subst x1 y1
        refine ⟨by omega, by omega, ?_⟩
        simp only [stepMeasure]
        rw [if_pos hp, if_pos hp]
        omega
      · have hs2 : getNextPlotCoordinate length x y = (x + 1, y) := by
          rw [getNextPlotCoordinate, if_neg h1, if_neg hlen,
            if_neg (by rw [ht]; omega)]
        injection hstep.symm.trans hs2 with e1 e2
        subst x1 y1
        refine ⟨by omega, by omega, ?_⟩
        simp only [stepMeasure]
        rw [if_neg (show ¬(y % 2 = 0) by omega),
          if_neg (show ¬(y % 2 = 0) by omega)]
        omega

/-- With fuel at least the termination measure, the traversal loop never
runs out: it returns some distance. -/
theorem flyLoop_some (length width : Int) (T : List (String × Int)) :
    ∀ fuel x y alt dist, 1 ≤ x → 1 ≤ y →
      stepMeasure length width x y ≤ fuel →
      ∃ d, flyLoop length width T fuel x y alt dist = some d := by
  intro fuel
  induction fuel with
  | zero =>
    intro x y alt dist hx hy hm
    by_cases hc : x ≤ length ∧ y ≤ width
    · exfalso
      simp only [stepMeasure] at hm
      have h1 : 1 ≤ (width + 1 - y).toNat := by omega
      have h2 : 1 * (length.toNat + 2) ≤ (width + 1 - y).toNat * (length.toNat + 2) :=
        Nat.mul_le_mul_right _ h1
      omega
    · exact ⟨dist, by rw [flyLoop, if_neg hc]⟩
  | succ fuel ih =>
    intro x y alt dist hx hy hm
    by_cases hc : x ≤ length ∧ y ≤ width
    · rw [flyLoop, if_pos hc]
      rcases hstep : getNextPlotCoordinate length x y with ⟨x1, y1⟩
      obtain ⟨hx1, hy1, hlt⟩ :=
        getNext_measure length width x y x1 y1 hstep hx hy hc.1 hc.2
      simp only
      cases htree : mapLookup T (generateTreeKey x1 y1) with
      | none =>
        by_cases halt : alt ≠ 1
        · rw [if_pos halt]
          exact ih x1 y1 1 _ hx1 hy1 (by omega)
        · rw [if_neg halt]
          exact ih x1 y1 alt dist hx1 hy1 (by omega)
      | some treeHeight =>
        exact ih x1 y1 (treeHeight + 1) _ hx1 hy1 (by omega)
    · exact ⟨dist, by rw [flyLoop, if_neg hc]⟩

/-- The chosen fuel equals the measure of the start state `(1,1)`. -/
theorem stepMeasure_start (length width : Int) :
    stepMeasure length width 1 1 = flyFuel length width := by
  simp only [stepMeasure, flyFuel]
  norm_num

/-- Claim C9: the traversal loop exits after finitely many iterations for
every field with `length, width ≥ 1` and every obstacle table, so the core
computation is a total function: the fueled embedding returns a distance. -/
theorem calculateFlyDistance_total (length width : Int)
    (treeMap : List (String × Int)) (_hl : 1 ≤ length) (_hw : 1 ≤ width) :
    ∃ d, calculateFlyDistance length width treeMap = some d := by
  exact flyLoop_some length width treeMap (flyFuel length width) 1 1 1
    (1 + calculateHorizontalDistance length width * 10 + 1)
    (by norm_num) (by norm_num) (le_of_eq (stepMeasure_start length width))

/-! ## The code agrees with the spec's reference algorithm -/

/-- The source's `absInt` is the absolute value. -/
theorem absInt_eq_abs (a : Int) : absInt a = |a| := by
  unfold absInt
  rcases lt_or_le a 0 with h | h
  · rw [if_pos h, abs_of_neg h]
  · rw [if_neg (not_lt.mpr h), abs_of_nonneg h]

/-- On widths at least 1 the source's horizontal-distance function equals
the spec's formula. -/
theorem horizontal_eq_spec (length width : Int) (hw : 1 ≤ width) :
    calculateHorizontalDistance length width =
      specHorizontalDistance length width := by
  by_cases h1 : width = 1
  · simp [calculateHorizontalDistance, specHorizontalDistance, h1]
  · have ht : Int.tmod width 2 = width % 2 := tmod_two_eq width (by omega)
    have hd : Int.tdiv width 2 = width / 2 := tdiv_two_eq width (by omega)
    rw [calculateHorizontalDistance, specHorizontalDistance, if_neg h1,
      if_neg h1, ht, hd]
    have hpar : width % 2 = 0 ∨ width % 2 = 1 := by omega
    rcases hpar with h | h <;> simp [h]

/-- The source's traversal loop and the spec's reference loop agree at every
fuel and state. -/
theorem flyLoop_eq_spec (length width : Int) (T : List (String × Int)) :
    ∀ fuel x y alt dist,
      flyLoop length width T fuel x y alt dist =
        specFlyLoop length width T fuel x y alt dist := by
  intro fuel
  induction fuel with
  | zero => intro x y alt dist; rw [flyLoop, specFlyLoop]
  | succ fuel ih =>
    intro x y alt dist
    by_cases hc : x ≤ length ∧ y ≤ width
    · rw [flyLoop, specFlyLoop, if_pos hc, if_pos hc]
      rcases getNextPlotCoordinate length x y with ⟨x1, y1⟩
      simp only
      cases mapLookup T (generateTreeKey x1 y1) with
      | none =>
        show (if alt ≠ 1 then
              flyLoop length width T fuel x1 y1 1 (dist + absInt (alt - 1))
            else flyLoop length width T fuel x1 y1 alt dist) =
          (if alt ≠ 1 then
              specFlyLoop length width T fuel x1 y1 1 (dist + |alt - 1|)
            else specFlyLoop length width T fuel x1 y1 alt dist)
        by_cases halt : alt ≠ 1
        · rw [if_pos halt, if_pos halt, absInt_eq_abs]
          exact ih x1 y1 1 (dist + |alt - 1|)
        · rw [if_neg halt, if_neg halt]
          exact ih x1 y1 alt dist
      | some h =>
        show flyLoop length width T fuel x1 y1 (h + 1)
              (dist + absInt (h + 1 - alt)) =
            specFlyLoop length width T fuel x1 y1 (h + 1) (dist + |h + 1 - alt|)
        rw [absInt_eq_abs]
        exact ih x1 y1 (h + 1) (dist + |h + 1 - alt|)
    · rw [flyLoop, specFlyLoop, if_neg hc, if_neg hc]

/-- Claim C2: the source's `calculateFlyDistance` equals the reference
algorithm of spec section 4.3 on every field with `length, width ≥ 1` and
every obstacle table. -/
theorem calculateFlyDistance_eq_spec (length width : Int)
    (T : List (String × Int)) (_hl : 1 ≤ length) (hw : 1 ≤ width) :
    calculateFlyDistance length width T = specFlyDistance length width T := by
  rw [calculateFlyDistance, specFlyDistance,
    horizontal_eq_spec length width hw, flyLoop_eq_spec]

/-- Concrete instance of claim C2 on a 3-by-2 field with one obstacle. -/
theorem calculateFlyDistance_eq_spec_witness :
    calculateFlyDistance 3 2 [(generateTreeKey 2 1, 4)] =
      specFlyDistance 3 2 [(generateTreeKey 2 1, 4)] :=
  calculateFlyDistance_eq_spec 3 2 [(generateTreeKey 2 1, 4)]
    (by norm_num) (by norm_num)

/-! ## The no-obstacle distance -/

/-- With an empty obstacle table the loop at altitude 1 never changes the
accumulated distance: it either runs out of fuel or returns it unchanged. -/
theorem flyLoop_nil (length width : Int) :
    ∀ fuel x y dist,
      flyLoop length width [] fuel x y 1 dist = none ∨
      flyLoop length width [] fuel x y 1 dist = some dist := by
  intro fuel
  induction fuel with
  | zero =>
    intro x y dist
    by_cases hc : x ≤ length ∧ y ≤ width
    · left; rw [flyLoop, if_pos hc]
    · right; rw [flyLoop, if_neg hc]
  | succ fuel ih =>
    intro x y dist
    by_cases hc : x ≤ length ∧ y ≤ width
    · rw [flyLoop, if_pos hc]
      rcases getNextPlotCoordinate length x y with ⟨x1, y1⟩
      simp only [mapLookup]
      rw [if_neg (by simp)]
      exact ih x1 y1 dist
    · right; rw [flyLoop, if_neg hc]

/-- Claim C6: with no obstacles the fly distance is exactly take-off plus
landing plus ten times the horizontal distance. -/
theorem calculateFlyDistance_no_trees (length width : Int)
    (hl : 1 ≤ length) (hw : 1 ≤ width) :
    calculateFlyDistance length width [] =
      some (2 + 10 * calculateHorizontalDistance length width) := by
  obtain ⟨d, hd⟩ := calculateFlyDistance_total length width [] hl hw
  have h2 := flyLoop_nil length width (flyFuel length width) 1 1
    (1 + calculateHorizontalDistance length width * 10 + 1)
  unfold calculateFlyDistance at hd ⊢
  rcases h2 with h | h
  · rw [h] at hd; exact absurd hd (by simp)
  · rw [h]; congr 1; ring

/-- Concrete instance of claim C6 on a 4-by-3 field. -/
theorem calculateFlyDistance_no_trees_witness :
    calculateFlyDistance 4 3 [] =
      some (2 + 10 * calculateHorizontalDistance 4 3) :=
  calculateFlyDistance_no_trees 4 3 (by norm_num) (by norm_num)

/-! ## Concrete end-to-end values -/

/-- Claim C7: the end-to-end spec values: 92 on the empty 10-by-1 field; 54
on the 5-by-1 field with trees of heights 5, 3, 4 at (2,1), (3,1), (4,1)
under every one of the six insertion orders; 62 when those three trees all
have height 10. -/
theorem calculateFlyDistance_examples :
    calculateFlyDistance 10 1 [] = some 92 ∧
    calculateFlyDistance 5 1 [(generateTreeKey 2 1, 5), (generateTreeKey 3 1, 3),
      (generateTreeKey 4 1, 4)] = some 54 ∧
    calculateFlyDistance 5 1 [(generateTreeKey 2 1, 5), (generateTreeKey 4 1, 4),
      (generateTreeKey 3 1, 3)] = some 54 ∧
    calculateFlyDistance 5 1 [(generateTreeKey 3 1, 3), (generateTreeKey 2 1, 5),
      (generateTreeKey 4 1, 4)] = some 54 ∧
    calculateFlyDistance 5 1 [(generateTreeKey 3 1, 3), (generateTreeKey 4 1, 4),
      (generateTreeKey 2 1, 5)] = some 54 ∧
    calculateFlyDistance 5 1 [(generateTreeKey 4 1, 4), (generateTreeKey 2 1, 5),
      (generateTreeKey 3 1, 3)] = some 54 ∧
    calculateFlyDistance 5 1 [(generateTreeKey 4 1, 4), (generateTreeKey 3 1, 3),
      (generateTreeKey 2 1, 5)] = some 54 ∧
    calculateFlyDistance 5 1 [(generateTreeKey 2 1, 10), (generateTreeKey 3 1, 10),
      (generateTreeKey 4 1, 10)] = some 62 := by
  refine ⟨by decide, by decide, by decide, by decide, by decide, by decide,
    by decide, by decide⟩

/-! ## Input validation in Start -/

/-- The tail of the obstacle stream shifts the indexed read by one. -/
theorem getD_tail (ts : List (Int × Int × Int)) (i : Nat)
    (d : Int × Int × Int) : ts.tail.getD i d = ts.getD (i + 1) d := by
  cases ts <;> simp [List.getD]

/-- The head of the obstacle stream is the read at index 0. -/
theorem headD_eq_getD (ts : List (Int × Int × Int)) (d : Int × Int × Int) :
    ts.headD d = ts.getD 0 d := by
  cases ts <;> rfl

/-- The obstacle-reading loop fails exactly when some triple among the first
`n` read has a height outside `[1, 30]`; it short-circuits at the first such
triple by construction. -/
theorem readTrees_none_iff :
    ∀ (n : Nat) (ts : List (Int × Int × Int)) (acc : List (String × Int)),
      readTrees n ts acc = none ↔
        ∃ i : Nat, i < n ∧
          ((ts.getD i (0, 0, 0)).2.2 < 1 ∨ (ts.getD i (0, 0, 0)).2.2 > 30) := by
  intro n
  induction n with
  | zero => intro ts acc; simp [readTrees]
  | succ n ih =>
    intro ts acc
    rw [readTrees]
    rcases hh : ts.headD (0, 0, 0) with ⟨x, y, h⟩
    show (if h < 1 ∨ h > 30 then none
        else readTrees n ts.tail ((generateTreeKey x y, h) :: acc)) = none ↔ _
    have h0 : (ts.getD 0 (0, 0, 0)).2.2 = h := by
      rw [← headD_eq_getD, hh]
    by_cases hbad : h < 1 ∨ h > 30
    · rw [if_pos hbad]
      refine iff_of_true rfl ⟨0, by omega, by omega⟩
    · rw [if_neg hbad]
      rw [ih ts.tail ((generateTreeKey x y, h) :: acc)]
      constructor
      · rintro ⟨i, hi, hb⟩
        rw [getD_tail] at hb
        exact ⟨i + 1, by omega, hb⟩
      · rintro ⟨i, hi, hb⟩
        match i with
        | 0 => omega
        | j + 1 =>
          rw [← getD_tail] at hb
          exact ⟨j, by omega, hb⟩

/-- The source's validation predicate, spelled out. -/
theorem validateInitialInputs_true_iff (length width count : Int) :
    validateInitialInputs length width count = true ↔
      (1 ≤ length ∧ length ≤ 50000 ∧ 1 ≤ width ∧ width ≤ 50000 ∧
       1 ≤ count ∧ count ≤ 50000) := by
  simp [validateInitialInputs]
  tauto

/-- Claim C5 (amended): `Start` signals FAIL exactly when the header triple
is out of range or one of the `count` obstacle reads has a height outside
`[1, 30]`.  Obstacle coordinates are never validated against the field
bounds. -/
theorem Start_fail_iff (length width count : Int)
    (ts : List (Int × Int × Int)) :
    Start length width count ts = some StartResult.fail ↔
      (¬ (1 ≤ length ∧ length ≤ 50000 ∧ 1 ≤ width ∧ width ≤ 50000 ∧
          1 ≤ count ∧ count ≤ 50000) ∨
       ∃ i : Nat, i < count.toNat ∧
         ((ts.getD i (0, 0, 0)).2.2 < 1 ∨ (ts.getD i (0, 0, 0)).2.2 > 30)) := by
  unfold Start
  by_cases hv : validateInitialInputs length width count = false
  · rw [if_pos hv]
    refine iff_of_true rfl (Or.inl ?_)
    intro hgood
    rw [← validateInitialInputs_true_iff] at hgood
    rw [hgood] at hv
    exact absurd hv (by simp)
  · rw [if_neg hv]
    have hgood : 1 ≤ length ∧ length ≤ 50000 ∧ 1 ≤ width ∧ width ≤ 50000 ∧
        1 ≤ count ∧ count ≤ 50000 := by
      rw [← validateInitialInputs_true_iff]
      revert hv
      cases validateInitialInputs length width count <;> simp
    cases hr : readTrees count.toNat ts [] with
    | none =>
      exact iff_of_true rfl (Or.inr ((readTrees_none_iff count.toNat ts []).mp hr))
    | some treeMap =>
      show (calculateFlyDistance length width treeMap).map StartResult.output =
          some StartResult.fail ↔ _
      refine iff_of_false ?_ ?_
      · cases hc : calculateFlyDistance length width treeMap <;> simp [hc]
      · rintro (hbad | hex)
        · exact hbad hgood
        · have hnone := (readTrees_none_iff count.toNat ts []).mpr hex
          rw [hr] at hnone
          exact absurd hnone (by simp)

/-- Claim C5, refuted as stated: an obstacle at (999,999) on a 5-by-5 field
is out of bounds, yet `Start` accepts it and prints the distance 232 rather
than signalling FAIL. -/
theorem Start_accepts_out_of_bounds :
    Start 5 5 1 [(999, 999, 5)] = some (StartResult.output 232) ∧
    ¬ ((999 : Int) ≤ 5) := by
  refine ⟨by decide, by decide⟩

/-! ## Injectivity of the coordinate key -/

/-- Core's fueled digit printer computes `natDigits` once the fuel exceeds
the number printed. -/
theorem toDigitsCore_eq_natDigits :
    ∀ (fuel n : Nat), n < fuel → ∀ ds : List Char,
      Nat.toDigitsCore 10 fuel n ds = natDigits n ++ ds := by
  intro fuel
  induction fuel with
  | zero => intro n hn; omega
  | succ fuel ih =>
    intro n hn ds
    rw [Nat.toDigitsCore]
    by_cases h10 : n / 10 = 0
    · rw [if_pos h10, natDigits, dif_pos (show n < 10 by omega)]
      rw [Nat.mod_eq_of_lt (show n < 10 by omega)]
      rfl
    · rw [if_neg h10, ih (n / 10) (by omega) (Nat.digitChar (n % 10) :: ds)]
      conv_rhs => rw [natDigits]
      rw [dif_neg (show ¬ n < 10 by omega), List.append_assoc]
      rfl

/-- `Nat.repr` produces exactly the `natDigits` character list. -/
theorem natRepr_data (n : Nat) : (Nat.repr n).data = natDigits n := by
  show (List.asString (Nat.toDigitsCore 10 (n + 1) n [])).data = _
  rw [toDigitsCore_eq_natDigits (n + 1) n (by omega) []]
  show natDigits n ++ [] = natDigits n
  simp

/-- No decimal digit character is a comma. -/
theorem natDigits_ne_comma (n : Nat) : ∀ c ∈ natDigits n, c ≠ ',' := by
  induction n using Nat.strong_induction_on with
  | _ n ih =>
    rw [natDigits]
    by_cases h10 : n < 10
    · rw [dif_pos h10]
      intro c hc
      simp at hc
      subst hc
      interval_cases n <;> decide
    · rw [dif_neg h10]
      intro c hc
      rw [List.mem_append] at hc
      rcases hc with hc | hc
      · exact ih (n / 10) (by omega) c hc
      · simp at hc
        subst hc
        have hlt : n % 10 < 10 := by omega
        interval_cases hm : (n % 10) <;> decide

/-- Reading the digit list back in base ten recovers the number. -/
theorem digitsVal_natDigits (n : Nat) : digitsVal (natDigits n) = n := by
  induction n using Nat.strong_induction_on with
  | _ n ih =>
    rw [natDigits]
    by_cases h10 : n < 10
    · rw [dif_pos h10]
      show digitsVal [Nat.digitChar n] = n
      interval_cases n <;> decide
    · rw [dif_neg h10]
      show digitsVal (natDigits (n / 10) ++ [Nat.digitChar (n % 10)]) = n
      unfold digitsVal
      rw [List.foldl_append]
      show digitsVal (natDigits (n / 10)) * 10 +
        ((Nat.digitChar (n % 10)).toNat - 48) = n
      rw [ih (n / 10) (by omega)]
      have hm : (Nat.digitChar (n % 10)).toNat - 48 = n % 10 := by
        have hlt : n % 10 < 10 := by omega
        interval_cases hmm : (n % 10) <;> decide
      omega

/-- A comma-separated concatenation of comma-free lists splits uniquely. -/
theorem append_comma_inj :
    ∀ (l1 l2 r1 r2 : List Char), ',' ∉ l1 → ',' ∉ l2 →
      l1 ++ ',' :: r1 = l2 ++ ',' :: r2 → l1 = l2 ∧ r1 = r2 := by
  intro l1
  induction l1 with
  | nil =>
    intro l2 r1 r2 h1 h2 he
    cases l2 with
    | nil => simpa using he
    | cons c l2t =>
      rw [List.nil_append, List.cons_append, List.cons.injEq] at he
      exact absurd (he.1 ▸ List.mem_cons_self c l2t) h2
  | cons c l1t ih =>
    intro l2 r1 r2 h1 h2 he
    cases l2 with
    | nil =>
      rw [List.nil_append, List.cons_append, List.cons.injEq] at he
      exact absurd (he.1 ▸ List.mem_cons_self c l1t) h1
    | cons c2 l2t =>
      rw [List.cons_append, List.cons_append, List.cons.injEq] at he
      obtain ⟨hc, ht⟩ := he
      have h1t : ',' ∉ l1t := fun hm => h1 (List.mem_cons_of_mem _ hm)
      have h2t : ',' ∉ l2t := fun hm => h2 (List.mem_cons_of_mem _ hm)
      obtain ⟨e1, e2⟩ := ih l2t r1 r2 h1t h2t ht
      exact ⟨by rw [hc, e1], e2⟩

/-- For positive integers, `Int.repr` is the digit list of the magnitude. -/
theorem int_repr_data (x : Int) (hx : 1 ≤ x) :
    (Int.repr x).data = natDigits x.toNat := by
  cases x with
  | ofNat m => exact natRepr_data m
  | negSucc m =>
    have := Int.negSucc_lt_zero m
    omega

/-- The characters of a tree key: digits of `x`, a comma, digits of `y`. -/
theorem generateTreeKey_data (x y : Int) (hx : 1 ≤ x) (hy : 1 ≤ y) :
    (generateTreeKey x y).data = natDigits x.toNat ++ ',' :: natDigits y.toNat := by
  unfold generateTreeKey
  rw [String.data_append, String.data_append, int_repr_data x hx,
    int_repr_data y hy]
  simp

/-- The tree key determines both coordinates when they are at least 1. -/
theorem generateTreeKey_inj (x1 y1 x2 y2 : Int)
    (hx1 : 1 ≤ x1) (hy1 : 1 ≤ y1) (hx2 : 1 ≤ x2) (hy2 : 1 ≤ y2)
    (he : generateTreeKey x1 y1 = generateTreeKey x2 y2) :
    x1 = x2 ∧ y1 = y2 := by
  have hd : (generateTreeKey x1 y1).data = (generateTreeKey x2 y2).data := by
    rw [he]
  rw [generateTreeKey_data x1 y1 hx1 hy1, generateTreeKey_data x2 y2 hx2 hy2]
    at hd
  obtain ⟨e1, e2⟩ := append_comma_inj _ _ _ _
    (fun hm => natDigits_ne_comma x1.toNat ',' hm rfl)
    (fun hm => natDigits_ne_comma x2.toNat ',' hm rfl) hd
  have ex : x1.toNat = x2.toNat := by
    have h1 := digitsVal_natDigits x1.toNat
    rw [e1, digitsVal_natDigits] at h1
    omega
  have ey : y1.toNat = y2.toNat := by
    have h1 := digitsVal_natDigits y1.toNat
    rw [e2, digitsVal_natDigits] at h1
    omega
  omega

/-- Claim C8: `generateTreeKey` is injective on in-range coordinates:
distinct pairs with all components at least 1 get distinct keys. -/
theorem generateTreeKey_injective (x1 y1 x2 y2 : Int)
    (hx1 : 1 ≤ x1) (hy1 : 1 ≤ y1) (hx2 : 1 ≤ x2) (hy2 : 1 ≤ y2)
    (hne : (x1, y1) ≠ (x2, y2)) :
    generateTreeKey x1 y1 ≠ generateTreeKey x2 y2 := by
  intro he
  obtain ⟨e1, e2⟩ := generateTreeKey_inj x1 y1 x2 y2 hx1 hy1 hx2 hy2 he
  exact hne (by rw [e1, e2])

/-- Concrete instance of claim C8: the keys of (1,2) and (2,1) differ. -/
theorem generateTreeKey_injective_witness :
    generateTreeKey 1 2 ≠ generateTreeKey 2 1 :=
  generateTreeKey_injective 1 2 2 1 (by norm_num) (by norm_num) (by norm_num)
    (by norm_num) (by decide)

/-! ## The start cell is never consulted -/

/-- A boustrophedon step from a cell with both coordinates at least 1 lands
on a cell with both coordinates at least 1 that is not `(1,1)`. -/
theorem getNext_ge_one (length x y x1 y1 : Int)
    (hstep : getNextPlotCoordinate length x y = (x1, y1))
    (hx : 1 ≤ x) (hy : 1 ≤ y) :
    1 ≤ x1 ∧ 1 ≤ y1 ∧ ¬ (x1 = 1 ∧ y1 = 1) := by
  have ht : Int.tmod y 2 = y % 2 := tmod_two_eq y (by omega)
  have hpar : y % 2 = 0 ∨ y % 2 = 1 := by omega
  by_cases h1 : x = 1
  · rcases hpar with hp | hp
    · have hs2 : getNextPlotCoordinate length x y = (x, y + 1) := by
        rw [getNextPlotCoordinate, if_pos h1, if_pos (by rw [ht]; omega)]
      injection hstep.symm.trans hs2 with e1 e2
      subst x1 y1
      omega
    · have hs2 : getNextPlotCoordinate length x y = (x + 1, y) := by
        rw [getNextPlotCoordinate, if_pos h1, if_neg (by rw [ht]; omega)]
      injection hstep.symm.trans hs2 with e1 e2
      subst x1 y1
      omega
  · by_cases hlen : x = length
    · rcases hpar with hp | hp
      · have hs2 : getNextPlotCoordinate length x y = (x - 1, y) := by
          rw [getNextPlotCoordinate, if_neg h1, if_pos hlen,
            if_pos (by rw [ht]; omega)]
        injection hstep.symm.trans hs2 with e1 e2
        subst x1 y1
        omega
      · have hs2 : getNextPlotCoordinate length x y = (x, y + 1) := by
          rw [getNextPlotCoordinate, if_neg h1, if_pos hlen,
            if_neg (by rw [ht]; omega)]
        injection hstep.symm.trans hs2 with e1 e2
        subst x1 y1
        omega
    · rcases hpar with hp | hp
      · have hs2 : getNextPlotCoordinate length x y = (x - 1, y) := by
          rw [getNextPlotCoordinate, if_neg h1, if_neg hlen,
            if_pos (by rw [ht]; omega)]
        injection hstep.symm.trans hs2 with e1 e2
        subst x1 y1
        omega
      · have hs2 : getNextPlotCoordinate length x y = (x + 1, y) := by
          rw [getNextPlotCoordinate, if_neg h1, if_neg hlen,
            if_neg (by rw [ht]; omega)]
        injection hstep.symm.trans hs2 with e1 e2
        subst x1 y1
        omega

/-- Two obstacle tables that agree on every key of a cell other than `(1,1)`
drive the traversal loop identically from any cell with coordinates at
least 1. -/
theorem flyLoop_agree (length width : Int) (T1 T2 : List (String × Int))
    (H : ∀ a b : Int, 1 ≤ a → 1 ≤ b → ¬ (a = 1 ∧ b = 1) →
      mapLookup T1 (generateTreeKey a b) = mapLookup T2 (generateTreeKey a b)) :
    ∀ fuel x y alt dist, 1 ≤ x → 1 ≤ y →
      flyLoop length width T1 fuel x y alt dist =
        flyLoop length width T2 fuel x y alt dist := by
  intro fuel
  induction fuel with
  | zero => intro x y alt dist hx hy; rw [flyLoop, flyLoop]
  | succ fuel ih =>
    intro x y alt dist hx hy
    by_cases hc : x ≤ length ∧ y ≤ width
    · rw [flyLoop, flyLoop, if_pos hc, if_pos hc]
      rcases hstep : getNextPlotCoordinate length x y with ⟨x1, y1⟩
      obtain ⟨hx1, hy1, hne⟩ := getNext_ge_one length x y x1 y1 hstep hx hy
      simp only
      rw [H x1 y1 hx1 hy1 hne]
      cases mapLookup T2 (generateTreeKey x1 y1) with
      | none =>
        show (if alt ≠ 1 then
              flyLoop length width T1 fuel x1 y1 1 (dist + absInt (alt - 1))
            else flyLoop length width T1 fuel x1 y1 alt dist) =
          (if alt ≠ 1 then
              flyLoop length width T2 fuel x1 y1 1 (dist + absInt (alt - 1))
            else flyLoop length width T2 fuel x1 y1 alt dist)
        by_cases halt : alt ≠ 1
        · rw [if_pos halt, if_pos halt]
          exact ih x1 y1 1 (dist + absInt (alt - 1)) hx1 hy1
        · rw [if_neg halt, if_neg halt]
          exact ih x1 y1 alt dist hx1 hy1
      | some h =>
        show flyLoop length width T1 fuel x1 y1 (h + 1)
              (dist + absInt (h + 1 - alt)) =
            flyLoop length width T2 fuel x1 y1 (h + 1)
              (dist + absInt (h + 1 - alt))
        exact ih x1 y1 (h + 1) (dist + absInt (h + 1 - alt)) hx1 hy1
    · rw [flyLoop, flyLoop, if_neg hc, if_neg hc]

/-- Erasing one key leaves lookups at every other key unchanged. -/
theorem mapLookup_erase (T : List (String × Int)) (k k1 : String)
    (hne : k1 ≠ k) :
    mapLookup (mapErase T k) k1 = mapLookup T k1 := by
  induction T with
  | nil => rfl
  | cons e rest ih =>
    rcases e with ⟨ek, ev⟩
    rw [mapErase]
    by_cases hek : ek = k
    · rw [if_pos hek, ih, mapLookup, if_neg (by rw [hek]; exact hne)]
    · rw [if_neg hek, mapLookup, mapLookup]
      by_cases hk1 : k1 = ek
      · rw [if_pos hk1, if_pos hk1]
      · rw [if_neg hk1, if_neg hk1, ih]

/-- Claim C10: an obstacle entry at the start cell `(1,1)` is never
consulted: inserting one gives the same distance as having no entry there
at all. -/
theorem calculateFlyDistance_ignores_start (length width : Int)
    (_hl : 1 ≤ length) (_hw : 1 ≤ width) (T : List (String × Int)) (h : Int) :
    calculateFlyDistance length width ((generateTreeKey 1 1, h) :: T) =
      calculateFlyDistance length width (mapErase T (generateTreeKey 1 1)) := by
  unfold calculateFlyDistance
  apply flyLoop_agree
  · intro a b ha hb hne
    have hkey : generateTreeKey a b ≠ generateTreeKey 1 1 := by
      apply generateTreeKey_injective a b 1 1 ha hb (by norm_num) (by norm_num)
      intro hp
      injection hp with e1 e2
      exact hne ⟨e1, e2⟩
    rw [mapLookup, if_neg hkey, mapLookup_erase T (generateTreeKey 1 1)
      (generateTreeKey a b) hkey]
  · norm_num
  · norm_num

/-- Concrete instance of claim C10 on a 2-by-1 field with one real tree. -/
theorem calculateFlyDistance_ignores_start_witness :
    calculateFlyDistance 2 1 ((generateTreeKey 1 1, 7) ::
        [(generateTreeKey 2 1, 3)]) =
      calculateFlyDistance 2 1
        (mapErase [(generateTreeKey 2 1, 3)] (generateTreeKey 1 1)) :=
  calculateFlyDistance_ignores_start 2 1 (by norm_num) (by norm_num)
    [(generateTreeKey 2 1, 3)] 7

/-! ## The boustrophedon traversal is a bijective enumeration -/

/-- Stepping from position `(row q, offset r)` of the serpentine stays in
the same row when the row is not finished. -/
theorem serp_core_A (l q r : Nat) (hl : 2 ≤ l) (hr1 : r + 1 < l) :
    getNextPlotCoordinate (l : Int)
        (if q % 2 = 0 then ((r : Nat) : Int) + 1 else (l : Int) - ((r : Nat) : Int))
        (((q : Nat) : Int) + 1) =
      (if q % 2 = 0 then ((r + 1 : Nat) : Int) + 1
        else (l : Int) - ((r + 1 : Nat) : Int),
       ((q : Nat) : Int) + 1) := by
  have hq : q % 2 = 0 ∨ q % 2 = 1 := by omega
  rcases hq with hq | hq
  · rw [if_pos hq, if_pos hq]
    have hyt : Int.tmod (((q : Nat) : Int) + 1) 2 = 1 := by
      rw [tmod_two_eq _ (by omega)]; omega
    by_cases hr0 : r = 0
    · subst hr0
      rw [getNextPlotCoordinate, if_pos (by push_cast <;> omega),
        if_neg (by simp [hyt])]
      simp only [Prod.mk.injEq]
      constructor <;> push_cast <;> omega
    · rw [getNextPlotCoordinate, if_neg (by push_cast <;> omega),
        if_neg (by push_cast <;> omega), if_neg (by simp [hyt])]
      simp only [Prod.mk.injEq]
      constructor <;> push_cast <;> omega
  · rw [if_neg (by omega), if_neg (by omega)]
    have hyt : Int.tmod (((q : Nat) : Int) + 1) 2 = 0 := by
      rw [tmod_two_eq _ (by omega)]; omega
    by_cases hr0 : r = 0
    · subst hr0
      rw [getNextPlotCoordinate, if_neg (by push_cast <;> omega),
        if_pos (by push_cast <;> omega), if_pos hyt]
      simp only [Prod.mk.injEq]
      constructor <;> push_cast <;> omega
    · rw [getNextPlotCoordinate, if_neg (by push_cast <;> omega),
        if_neg (by push_cast <;> omega), if_pos hyt]
      simp only [Prod.mk.injEq]
      constructor <;> push_cast <;> omega

/-- Stepping from the last cell of a row moves north to the next row's
starting edge. -/
theorem serp_core_B (l q r : Nat) (hl : 2 ≤ l) (hr1 : r + 1 = l) :
    getNextPlotCoordinate (l : Int)
        (if q % 2 = 0 then ((r : Nat) : Int) + 1 else (l : Int) - ((r : Nat) : Int))
        (((q : Nat) : Int) + 1) =
      (if (q + 1) % 2 = 0 then ((0 : Nat) : Int) + 1
        else (l : Int) - ((0 : Nat) : Int),
       ((q + 1 : Nat) : Int) + 1) := by
  have hq : q % 2 = 0 ∨ q % 2 = 1 := by omega
  rcases hq with hq | hq
  · rw [if_pos hq, if_neg (by omega)]
    have hyt : Int.tmod (((q : Nat) : Int) + 1) 2 = 1 := by
      rw [tmod_two_eq _ (by omega)]; omega
    rw [getNextPlotCoordinate, if_neg (by push_cast <;> omega),
      if_pos (by push_cast <;> omega), if_neg (by simp [hyt])]
    simp only [Prod.mk.injEq]
    constructor <;> push_cast <;> omega
  · rw [if_neg (by omega), if_pos (by omega)]
    have hyt : Int.tmod (((q : Nat) : Int) + 1) 2 = 0 := by
      rw [tmod_two_eq _ (by omega)]; omega
    rw [getNextPlotCoordinate, if_pos (by push_cast <;> omega), if_pos hyt]
    simp only [Prod.mk.injEq]
    constructor <;> push_cast <;> omega

/-- One `getNextPlotCoordinate` step advances the serpentine closed form by
one index. -/
theorem serp_step (l : Nat) (hl : 2 ≤ l) (n : Nat) :
    stepCoord (l : Int) (serp l n) = serp l (n + 1) := by
  have hl0 : 0 < l := by omega
  have hrl : n % l < l := Nat.mod_lt _ hl0
  simp only [serp, stepCoord]
  rcases Nat.lt_or_ge (n % l + 1) l with hcase | hcase
  · have hsplit : n + 1 = l * (n / l) + (n % l + 1) := by
      have := Nat.div_add_mod n l
      omega
    have hd1 : (n + 1) / l = n / l := by
      rw [hsplit, Nat.mul_add_div hl0, Nat.div_eq_of_lt hcase, Nat.add_zero]
    have hm1 : (n + 1) % l = n % l + 1 := by
      rw [hsplit, Nat.mul_add_mod, Nat.mod_eq_of_lt hcase]
    rw [hd1, hm1]
    exact serp_core_A l (n / l) (n % l) hl hcase
  · have heq : n % l + 1 = l := by omega
    have hsplit : n + 1 = l * (n / l + 1) := by
      have h1 := Nat.div_add_mod n l
      have h2 : l * (n / l + 1) = l * (n / l) + l := by
        rw [Nat.mul_add, Nat.mul_one]
      omega
    have hd1 : (n + 1) / l = n / l + 1 := by
      rw [hsplit, Nat.mul_div_cancel_left _ hl0]
    have hm1 : (n + 1) % l = 0 := by
      rw [hsplit, Nat.mul_mod_right]
    rw [hd1, hm1]
    exact serp_core_B l (n / l) (n % l) hl heq

/-- On fields of length at least 2 the trajectory from `(1,1)` follows the
serpentine closed form. -/
theorem plotTraj_eq_serp (l : Nat) (hl : 2 ≤ l) :
    ∀ n : Nat, plotTraj (l : Int) n = serp l n := by
  intro n
  induction n with
  | zero =>
    show (1, 1) = serp l 0
    simp [serp, Nat.zero_mod, Nat.zero_div]
  | succ n ih =>
    show (stepCoord (l : Int))^[n + 1] (1, 1) = serp l (n + 1)
    rw [Function.iterate_succ_apply']
    show stepCoord (l : Int) (plotTraj (l : Int) n) = serp l (n + 1)
    rw [ih]
    exact serp_step l hl n

/-- The serpentine closed form is injective in the step index. -/
theorem serp_inj (l : Nat) (hl : 2 ≤ l) (n m : Nat)
    (he : serp l n = serp l m) : n = m := by
  simp only [serp, Prod.mk.injEq] at he
  obtain ⟨hx, hy⟩ := he
  have hq : n / l = m / l := by omega
  rw [hq] at hx
  have h1 := Nat.div_add_mod n l
  have h2 := Nat.div_add_mod m l
  rw [hq] at h1
  by_cases hp : (m / l) % 2 = 0
  · rw [if_pos hp, if_pos hp] at hx
    omega
  · rw [if_neg hp, if_neg hp] at hx
    omega

/-- The first `l * w` serpentine positions lie inside the rectangle. -/
theorem serp_in_rect (l w n : Nat) (hl : 2 ≤ l) (hn : n < l * w) :
    inRect (l : Int) (w : Int) (serp l n) := by
  have hl0 : 0 < l := by omega
  have hrl : n % l < l := Nat.mod_lt _ hl0
  have hq : n / l < w := by
    rw [Nat.div_lt_iff_lt_mul hl0]
    have := Nat.mul_comm l w
    omega
  have hnn1 : (0 : Int) ≤ ((n / l : Nat) : Int) := Int.natCast_nonneg _
  have hnn2 : (0 : Int) ≤ ((n % l : Nat) : Int) := Int.natCast_nonneg _
  simp only [inRect, serp]
  by_cases hp : (n / l) % 2 = 0
  · rw [if_pos hp]
    refine ⟨by omega, by omega, by omega, by omega⟩
  · rw [if_neg hp]
    refine ⟨by omega, by omega, by omega, by omega⟩

/-- Every cell of the rectangle is a serpentine position with index below
`l * w`. -/
theorem serp_surj (l w : Nat) (hl : 2 ≤ l) (x y : Int)
    (h : inRect (l : Int) (w : Int) (x, y)) :
    ∃ n : Nat, n < l * w ∧ serp l n = (x, y) := by
  obtain ⟨h1, h2, h3, h4⟩ := h
  have hl0 : 0 < l := by omega
  have hbw : (y - 1).toNat < w := by omega
  have hstep : l * ((y - 1).toNat + 1) ≤ l * w :=
    Nat.mul_le_mul_left l (by omega)
  rw [Nat.mul_succ] at hstep
  by_cases hp : (y - 1).toNat % 2 = 0
  · have hal : (x - 1).toNat < l := by omega
    refine ⟨l * (y - 1).toNat + (x - 1).toNat, by omega, ?_⟩
    have hd : (l * (y - 1).toNat + (x - 1).toNat) / l = (y - 1).toNat := by
      rw [Nat.mul_add_div hl0, Nat.div_eq_of_lt hal, Nat.add_zero]
    have hm : (l * (y - 1).toNat + (x - 1).toNat) % l = (x - 1).toNat := by
      rw [Nat.mul_add_mod, Nat.mod_eq_of_lt hal]
    simp only [serp, hd, hm, if_pos hp, Prod.mk.injEq]
    constructor <;> omega
  · have hal : l - 1 - (x - 1).toNat < l := by omega
    refine ⟨l * (y - 1).toNat + (l - 1 - (x - 1).toNat), by omega, ?_⟩
    have hd : (l * (y - 1).toNat + (l - 1 - (x - 1).toNat)) / l = (y - 1).toNat := by
      rw [Nat.mul_add_div hl0, Nat.div_eq_of_lt hal, Nat.add_zero]
    have hm : (l * (y - 1).toNat + (l - 1 - (x - 1).toNat)) % l =
        l - 1 - (x - 1).toNat := by
      rw [Nat.mul_add_mod, Nat.mod_eq_of_lt hal]
    simp only [serp, hd, hm, if_neg hp, Prod.mk.injEq]
    constructor <;> omega

/-- Claim C1 (amended): for `length ≥ 2` (or `width = 1`), iterating
`getNextPlotCoordinate` from `(1,1)` visits only cells of the rectangle
during the first `length * width` positions, and every cell of the
rectangle is visited at exactly one index below `length * width`. -/
theorem plot_traversal_bijective (l w : Nat) (hl : 1 ≤ l) (hw : 1 ≤ w)
    (hok : 2 ≤ l ∨ w = 1) :
    (∀ n : Nat, n < l * w → inRect (l : Int) (w : Int) (plotTraj (l : Int) n)) ∧
    (∀ p : Int × Int, inRect (l : Int) (w : Int) p →
      ∃! n : Nat, n < l * w ∧ plotTraj (l : Int) n = p) := by
  by_cases hl2 : 2 ≤ l
  · constructor
    · intro n hn
      rw [plotTraj_eq_serp l hl2 n]
      exact serp_in_rect l w n hl2 hn
    · rintro ⟨x, y⟩ hp
      obtain ⟨n, hn, he⟩ := serp_surj l w hl2 x y hp
      refine ⟨n, ⟨hn, by rw [plotTraj_eq_serp l hl2 n]; exact he⟩, ?_⟩
      rintro m ⟨hm, hme⟩
      apply serp_inj l hl2 m n
      rw [plotTraj_eq_serp l hl2 m] at hme
      rw [hme]
      exact he.symm
  · have hl1 : l = 1 := by omega
    have hw1 : w = 1 := by
      rcases hok with h | h
      · omega
      · exact h
    subst hl1
    subst hw1
    constructor
    · intro n hn
      have hn0 : n = 0 := by omega
      subst hn0
      show inRect _ _ ((stepCoord _)^[0] (1, 1))
      rw [Function.iterate_zero_apply]
      refine ⟨by norm_num, by norm_num, by norm_num, by norm_num⟩
    · rintro ⟨x, y⟩ hp
      obtain ⟨h1, h2, h3, h4⟩ := hp
      have hx : x = 1 := by
        have : ((1 : Nat) : Int) = 1 := by norm_num
        omega
      have hy : y = 1 := by
        have : ((1 : Nat) : Int) = 1 := by norm_num
        omega
      subst hx
      subst hy
      refine ⟨0, ⟨by omega, ?_⟩, ?_⟩
      · show (stepCoord _)^[0] (1, 1) = (1, 1)
        rw [Function.iterate_zero_apply]
      · rintro m ⟨hm, _⟩
        omega

/-- Claim C1, refuted as stated: on a field of length 1 and width 2 the
second visited position is `(2,1)`, outside the field, and the cell `(1,2)`
is never visited within `length * width` steps. -/
theorem plot_traversal_counterexample :
    ¬ (∀ p : Int × Int, inRect 1 2 p →
        ∃ n : Nat, n < 1 * 2 ∧ plotTraj 1 n = p) := by
  intro hcl
  obtain ⟨n, hn, he⟩ := hcl (1, 2) (by norm_num [inRect])
  have hn01 : n = 0 ∨ n = 1 := by omega
  rcases hn01 with h | h <;> subst h
  · exact absurd he (by decide)
  · exact absurd he (by decide)

/-- Concrete instance of claim C1 on a 2-by-2 field. -/
theorem plot_traversal_bijective_witness :
    (∀ n : Nat, n < 2 * 2 →
      inRect ((2 : Nat) : Int) ((2 : Nat) : Int) (plotTraj ((2 : Nat) : Int) n)) ∧
    (∀ p : Int × Int, inRect ((2 : Nat) : Int) ((2 : Nat) : Int) p →
      ∃! n : Nat, n < 2 * 2 ∧ plotTraj ((2 : Nat) : Int) n = p) :=
  plot_traversal_bijective 2 2 (by norm_num) (by norm_num)
    (Or.inl (by norm_num))


/-- Concrete instance of claim C9 on a 3-by-2 field with one tree. -/
theorem calculateFlyDistance_total_witness :
    ∃ d, calculateFlyDistance 3 2 [(generateTreeKey 2 2, 9)] = some d :=
  calculateFlyDistance_total 3 2 [(generateTreeKey 2 2, 9)]
    (by norm_num) (by norm_num)
